import Mathlib

/-!
Verification of the race-live (OpenF1) core of `of1-discord-bot`
(`src/bot.py`): the window resolver `_pick_current_meeting_and_window`,
the per-guild follower `race_live_loop`, the supervisor
`race_supervisor_loop`, and the kill/inspect surface (`_racetail`,
`racelivetail`, `racelivestop`).

Times (parsed ISO datetimes) are modelled as integers in minutes, so a
padding of `h` hours is `60 * h`.  Python dictionaries keyed by guild id
are modelled as association lists or `Option`-valued stores; Python sets
of strings are modelled as `List String` used only through membership.
-/

/-- One control-room feed item as consumed by `race_live_loop`: the
`date` and `message` fields of an OpenF1 `race_control` entry (a field
that is absent or JSON-null is `none`). -/
structure ControlItem where
  date : Option String
  message : Option String
deriving DecidableEq, Repr

/-- Python `str.upper` on the character sequence (ASCII-faithful). -/
def pyUpper (s : String) : String := ⟨s.data.map Char.toUpper⟩

/-- The whitespace characters removed by Python `str.strip()`. -/
def isPySpace (c : Char) : Bool := c = ' ' ∨ c = '\t' ∨ c = '\n' ∨ c = '\r'

/-- Python `str.strip()`: drop leading and trailing whitespace. -/
def pyStrip (s : String) : String :=
  ⟨((s.data.dropWhile isPySpace).reverse.dropWhile isPySpace).reverse⟩

/-- `msg = str(item.get("message") or "").strip()` in `race_live_loop`
(bot.py line 1117). -/
def itemMsg (it : ControlItem) : String := pyStrip (it.message.getD "")

/-- The dedup signature `sig = f"{dt}|{msg}"` with
`dt = str(item.get("date") or "")` (bot.py lines 1120-1121). -/
def itemSig (it : ControlItem) : String := (it.date.getD "") ++ "|" ++ itemMsg it

/-- One iteration of the `for item in rc[-30:]` body of `race_live_loop`
(bot.py lines 1116-1125).  The accumulator is the signature set plus the
items relayed so far this poll, in relay order. -/
def raceStep (acc : List String × List ControlItem) (it : ControlItem) :
    List String × List ControlItem :=
  if itemMsg it = "" then acc
  else if itemSig it ∈ acc.1 then acc
  else (itemSig it :: acc.1, acc.2 ++ [it])

/-- The slice `rc[-30:]` (bot.py line 1116): the final thirty items of
the fetched batch, or all of them when there are fewer. -/
def lastThirty (rc : List ControlItem) : List ControlItem := rc.drop (rc.length - 30)

/-- One poll of `race_live_loop`: fold the relay body over `rc[-30:]`,
starting from the guild's current signature set.  Returns the updated
signature set and the items relayed by this poll, in relay order. -/
def racePoll (sigs : List String) (rc : List ControlItem) :
    List String × List ControlItem :=
  (lastThirty rc).foldl raceStep (sigs, [])

/-- A follower run over successive fetched batches, threading the
signature set; returns the final signature set and the per-batch relay
lists in order. -/
def raceRun : List String → List (List ControlItem) → List String × List (List ControlItem)
  | sigs, [] => (sigs, [])
  | sigs, rc :: rest =>
    let p := racePoll sigs rc
    let r := raceRun p.1 rest
    (r.1, p.2 :: r.2)

/-- Signature `s` is carried by some item of `l` that passes the
empty-message guard. -/
def SigEligible (s : String) (l : List ControlItem) : Prop :=
  ∃ it ∈ l, itemMsg it ≠ "" ∧ itemSig it = s

instance (s : String) (l : List ControlItem) : Decidable (SigEligible s l) := by
  unfold SigEligible
  exact List.decidableBEx _ l

/-- Number of relayed items of `l` carrying signature `s`. -/
def countSig (s : String) (l : List ControlItem) : Nat :=
  l.countP (fun it => decide (itemSig it = s))

/-- Total number of items carrying signature `s` relayed over a whole
run's per-batch outputs. -/
def totalSig (s : String) (outs : List (List ControlItem)) : Nat :=
  (outs.map (countSig s)).sum

/-- Signature `s` is eligible (passes the empty-message guard inside the
final-thirty slice) in some batch of the run. -/
def RunEligible (s : String) (batches : List (List ControlItem)) : Prop :=
  ∃ rc ∈ batches, SigEligible s (lastThirty rc)

instance (s : String) (batches : List (List ControlItem)) :
    Decidable (RunEligible s batches) := by
  unfold RunEligible
  exact List.decidableBEx _ batches

/-- Lexicographic order on character lists (kernel-computable). -/
def charListLe : List Char → List Char → Bool
  | [], _ => true
  | _ :: _, [] => false
  | a :: as, b :: bs => if a = b then charListLe as bs else decide (a < b)

/-- Chronological order of two feed items: their `date` fields compared
as ISO-8601 strings (lexicographic order coincides with chronological
order on the fixed-format timestamps OpenF1 returns). -/
def tsLe (a b : ControlItem) : Prop :=
  charListLe (a.date.getD "").data (b.date.getD "").data = true

instance : DecidableRel tsLe := fun a b => by
  unfold tsLe
  infer_instance

/-- A concrete control item used by the witnesses below. -/
def itemA : ControlItem := ⟨some "2024-03-02T15:04:05", some "SAFETY CAR DEPLOYED"⟩

/-- A second concrete control item, timestamped after `itemA`. -/
def itemB : ControlItem := ⟨some "2024-03-02T15:06:10", some "TRACK CLEAR"⟩

/-- `RACE_LIVE_POSTED_SIGS.setdefault(gid, set())` (bot.py line 1100):
the signature set a new activation of `race_live_loop` starts from is
the guild's existing process-global set when one is present, and empty
only when the guild has no entry yet. -/
def activateSigs (store : Option (List String)) : List String := store.getD []

/-- A 31-item batch whose head is an eligible item that sits just before
the final-thirty slice. -/
def batch31 : List ControlItem :=
  ⟨some "00", some "EARLY"⟩ ::
    (List.range 30).map (fun i => ⟨some (toString i), some "F"⟩)

/-- One OpenF1 session record, restricted to the fields the resolver
and supervisor use.  Parsed ISO datetimes are integers in minutes; an
absent or JSON-null field is `none`. -/
structure Session where
  session_type : Option String
  session_name : Option String
  date_start : Option Int
  date_end : Option Int
  session_key : Int
deriving DecidableEq, Repr

/-- `_session_type_upper` (bot.py lines 1017-1018):
`str(s.get("session_type") or s.get("session_name") or "").upper().strip()`;
Python `or` falls through both on a missing field and on an empty
string. -/
def sessionTypeUpper (s : Session) : String :=
  let a := s.session_type.getD ""
  let b := if a = "" then s.session_name.getD "" else a
  pyStrip (pyUpper b)

/-- `FOLLOW_SESSION_TYPES` (bot.py lines 1020-1027). -/
def FOLLOW_SESSION_TYPES : List String :=
  ["RACE", "QUALIFYING", "QUALI", "SPRINT", "SPRINT QUALIFYING",
    "SPRINT SHOOTOUT"]

/-- The followed-category filter of `_pick_current_meeting_and_window`
(bot.py line 1079). -/
def relevantSessions (sessions : List Session) : List Session :=
  sessions.filter (fun s => decide (sessionTypeUpper s ∈ FOLLOW_SESSION_TYPES))

/-- `_pick_current_meeting_and_window` (bot.py lines 1066-1095) after
its two fetches: from the sibling sessions of the current meeting and
the configured `RACE_WINDOW_PADDING_HOURS`, compute
`(window_start, window_end, meta, relevant)`, or `none` when the filter
or either date list comes up empty. -/
def pickWindow (sessions : List Session) (padHours : Int) :
    Option (Int × Int × Session × List Session) :=
  match relevantSessions sessions with
  | [] => none
  | meta :: rest =>
    match (meta :: rest).filterMap Session.date_start,
        (meta :: rest).filterMap Session.date_end with
    | [], _ => none
    | _, [] => none
    | s0 :: ss, e0 :: es =>
      some (ss.foldl min s0 - 60 * max 0 (min 72 padHours),
        es.foldl max e0 + 60 * max 0 (min 72 padHours), meta, meta :: rest)

/-- Concrete sibling session 10:00–11:30 (600–690 minutes). -/
def sessRace : Session := ⟨some "Race", none, some 600, some 690, 9001⟩

/-- Concrete sibling session 13:00–15:00 (780–900 minutes). -/
def sessQuali : Session := ⟨some "Qualifying", none, some 780, some 900, 9002⟩

/-- Per-guild registry entry as the supervisor sees it: `running` is
"`RACE_LIVE_TASKS[gid]` exists and is not done", `enabled` is
`RACE_LIVE_ENABLED[gid]`, and `sessionKey` records the `session_key`
passed to the guild's `race_live_loop` when it was started. -/
structure GuildSt where
  running : Bool
  enabled : Bool
  sessionKey : Option Int
deriving DecidableEq, Repr

/-- The per-guild body of the supervisor's `for guild in bot.guilds`
loop (bot.py lines 1164-1190): start a follower when inside the window
and none is running (provisioning the destination first, which may
raise), stop the running one when outside the window.  Returns the new
state, the number of destination-plus-follower activations (0 or 1),
and whether provisioning raised. -/
def superTickGuild (sk : Int) (provisionOk : Bool) (in_window : Bool)
    (st : GuildSt) : GuildSt × Nat × Bool :=
  if in_window && !st.running then
    if provisionOk then
      ({ running := true, enabled := true, sessionKey := some sk }, 1, false)
    else (st, 0, true)
  else if !in_window && st.running then
    ({ st with running := false, enabled := false }, 0, false)
  else (st, 0, false)

/-- The supervisor's guild loop over the registry: guilds are processed
in order; an exception raised while provisioning one guild propagates
out of the `for` loop, leaving that guild and every later guild
untouched for this cycle.  Returns the new registry, the number of
activations, and whether the loop was aborted by an exception. -/
def cycleGuilds (sk : Int) (provisionOk : Nat → Bool) (in_window : Bool) :
    List (Nat × GuildSt) → List (Nat × GuildSt) × Nat × Bool
  | [] => ([], 0, false)
  | (g, st) :: rest =>
    match superTickGuild sk (provisionOk g) in_window st with
    | (st1, c, true) => ((g, st1) :: rest, c, true)
    | (st1, c, false) =>
      let r := cycleGuilds sk provisionOk in_window rest
      ((g, st1) :: r.1, c + r.2.1, r.2.2)

/-- `n` successive supervisor ticks on one guild with provisioning
succeeding, all seeing the same `in_window`; counts total
activations. -/
def superTicks (sk : Int) (in_window : Bool) : Nat → GuildSt → GuildSt × Nat
  | 0, st => (st, 0)
  | n + 1, st =>
    let t := superTickGuild sk true in_window st
    let r := superTicks sk in_window n t.1
    (r.1, t.2.1 + r.2)

/-- `datetime.min.replace(tzinfo=timezone.utc)` in minutes: the
sort key used for a session with no `date_start` (bot.py line 1159). -/
def dtMin : Int := -1035593280

/-- `_key` (bot.py lines 1157-1159). -/
def keyOf (s : Session) : Int := s.date_start.getD dtMin

/-- The comparison `sorted(relevant, key=_key)` sorts by. -/
def keyLe (a b : Session) : Bool := decide (keyOf a ≤ keyOf b)

/-- Stable insertion into a sorted list: the new element goes after
every element that compares less-or-equal to it. -/
def insertLe {α : Type} (le : α → α → Bool) (x : α) : List α → List α
  | [] => [x]
  | y :: ys => if le y x then y :: insertLe le x ys else x :: y :: ys

/-- Python's stable `sorted(l, key=...)`, modelled as a stable insertion
sort (any two stable sorts under the same total preorder agree, so this
is extensionally the list `sorted` returns). -/
def pySorted {α : Type} (le : α → α → Bool) (l : List α) : List α :=
  l.foldl (fun acc x => insertLe le x acc) []

/-- `sorted(relevant, key=_key)[-1]` (bot.py line 1161): the last
element of the stable sort, i.e. the latest-starting relevant session;
`none` models the `IndexError` on an empty list. -/
def pickLatest (relevant : List Session) : Option Session :=
  (pySorted keyLe relevant).getLast?

/-- `idle_s = max(60, min(60*180, idle_s))` (bot.py lines 1142-1143). -/
def idleClamp (raw : Int) : Int := max 60 (min 10800 raw)

/-- One cycle of the supervisor's `while` body (bot.py lines 1146-1196).
`resolved` is the outcome of `_pick_current_meeting_and_window`:
`.error` models a raised transport error, `.ok none` a "no window"
result, `.ok (some ...)` a resolved window.  Any exception — from the
resolver, from `sorted(...)[-1]` on an empty list, or from provisioning
inside the guild loop — is caught by the outer handler and followed by
a fixed 60-second sleep; otherwise the cycle sleeps 60 seconds while
inside the window and the clamped idle interval when not.  Returns the
updated registry and the seconds slept before the next cycle. -/
def superCycle (idle_s : Int) (now : Int)
    (resolved : Except Unit (Option (Int × Int × Session × List Session)))
    (provisionOk : Nat → Bool)
    (guilds : List (Nat × GuildSt)) : List (Nat × GuildSt) × Int :=
  match resolved with
  | .error _ => (guilds, 60)
  | .ok none => (guilds, idle_s)
  | .ok (some (ws, we, _meta, relevant)) =>
    match pickLatest relevant with
    | none => (guilds, 60)
    | some latest =>
      let in_window := decide (ws ≤ now) && decide (now ≤ we)
      let r := cycleGuilds latest.session_key provisionOk in_window guilds
      if r.2.2 then (r.1, 60) else (r.1, if in_window then 60 else idle_s)

/-- A registry entry that is neither running nor enabled and has no
recorded session key. -/
def idleG : GuildSt := { running := false, enabled := false, sessionKey := none }

/-- `list(buf)[-n:]` in `_racetail` (bot.py line 1005): Python's
negative-index slice.  For `n = 0` the slice `[-0:]` equals `[0:]` —
the whole list — not the last zero elements. -/
def racetailLines (buf : List String) (n : Nat) : List String :=
  if n = 0 then buf else buf.drop (buf.length - n)

/-- The last `n` lines of a trail, following the spec's words for
`tail(tenantId, n)` (all lines when the trail holds fewer than `n`). -/
def specLastLines (buf : List String) (n : Nat) : List String :=
  buf.drop (buf.length - n)

/-- The per-guild race-live module state read by the administrative
surface: `RACE_LIVE_ENABLED`, `RACE_LIVE_TASKS` (is the task alive),
`RACE_LIVE_DEBUG` and `RACE_LIVE_POSTED_SIGS`, as association lists
keyed by guild id; a missing key is a guild with no entry. -/
structure RaceState where
  enabled : List (Nat × Bool)
  taskAlive : List (Nat × Bool)
  debug : List (Nat × List String)
  postedSigs : List (Nat × List String)
deriving DecidableEq, Repr

/-- Python `dict.get(k)`: lookup without insertion. -/
def dictGet {α : Type} (d : List (Nat × α)) (k : Nat) : Option α :=
  (d.find? (fun p => p.1 == k)).map Prod.snd

/-- `_racetail` (bot.py lines 1003-1006) over the module state:
`buf = RACE_LIVE_DEBUG.get(gid) or deque()`, `tail = list(buf)[-n:]`,
joined with newlines or replaced by a placeholder when empty.  The
state is threaded through to make the absence of writes explicit
(`dict.get` does not insert). -/
def racetailRun (st : RaceState) (gid : Nat) (n : Nat) :
    (List String × String) × RaceState :=
  let buf := (dictGet st.debug gid).getD []
  let tail := racetailLines buf n
  let out := if tail = [] then "(no debug lines captured)"
    else String.intercalate "\n" tail
  ((tail, out), st)

/-- `lines = max(1, min(50, int(lines)))` in `racelivetail`
(bot.py line 1223). -/
def tailClamp (lines : Int) : Int := max 1 (min 50 lines)

/-- A concrete module state with a three-line trail for guild 1. -/
def stThree : RaceState :=
  ⟨[(1, true)], [(1, false)], [(1, ["a", "b", "c"])], []⟩

theorem sigEligible_cons {s : String} {a : ControlItem} {l : List ControlItem} :
    SigEligible s (a :: l) ↔ (itemMsg a ≠ "" ∧ itemSig a = s) ∨ SigEligible s l := by
  constructor
  · rintro ⟨it, hmem, hp⟩
    rcases List.mem_cons.mp hmem with h | h
    · exact Or.inl (h ▸ hp)
    · exact Or.inr ⟨it, h, hp⟩
  · rintro (hp | ⟨it, hmem, hp⟩)
    · exact ⟨a, List.mem_cons_self a l, hp⟩
    · exact ⟨it, List.mem_cons_of_mem a hmem, hp⟩

theorem raceFold_mem_fst (l : List ControlItem) :
    ∀ (sigs : List String) (out : List ControlItem) (s : String),
      s ∈ (l.foldl raceStep (sigs, out)).1 ↔ s ∈ sigs ∨ SigEligible s l := by
  induction l with
  | nil =>
    intro sigs out s
    simp [SigEligible]
  | cons a l ih =>
    intro sigs out s
    simp only [List.foldl_cons]
    by_cases hm : itemMsg a = ""
    · rw [show raceStep (sigs, out) a = (sigs, out) by simp [raceStep, hm]]
      rw [ih, sigEligible_cons]
      simp [hm]
    · by_cases hs : itemSig a ∈ sigs
      · rw [show raceStep (sigs, out) a = (sigs, out) by simp [raceStep, hm, hs]]
        rw [ih, sigEligible_cons]
        constructor
        · rintro (h | h)
          · exact Or.inl h
          · exact Or.inr (Or.inr h)
        · rintro (h | ⟨_, h⟩ | h)
          · exact Or.inl h
          · exact Or.inl (h ▸ hs)
          · exact Or.inr h
      · rw [show raceStep (sigs, out) a = (itemSig a :: sigs, out ++ [a]) by
            simp [raceStep, hm, hs]]
        rw [ih, sigEligible_cons]
        simp only [List.mem_cons]
        constructor
        · rintro ((h | h) | h)
          · exact Or.inr (Or.inl ⟨hm, h.symm⟩)
          · exact Or.inl h
          · exact Or.inr (Or.inr h)
        · rintro (h | ⟨_, h⟩ | h)
          · exact Or.inl (Or.inr h)
          · exact Or.inl (Or.inl h.symm)
          · exact Or.inr h

theorem raceFold_count_snd (l : List ControlItem) :
    ∀ (sigs : List String) (out : List ControlItem) (s : String),
      countSig s (l.foldl raceStep (sigs, out)).2 =
        countSig s out +
          (if s ∈ sigs then 0 else if SigEligible s l then 1 else 0) := by
  induction l with
  | nil =>
    intro sigs out s
    simp [SigEligible]
  | cons a l ih =>
    intro sigs out s
    simp only [List.foldl_cons]
    by_cases hm : itemMsg a = ""
    · rw [show raceStep (sigs, out) a = (sigs, out) by simp [raceStep, hm]]
      rw [ih]
      simp [sigEligible_cons, hm]
    · by_cases hsig : itemSig a ∈ sigs
      · rw [show raceStep (sigs, out) a = (sigs, out) by simp [raceStep, hm, hsig]]
        rw [ih]
        by_cases hs : s ∈ sigs
        · simp [hs]
        · have hne : ¬itemSig a = s := fun h => hs (h ▸ hsig)
          simp [sigEligible_cons, hne, hs]
      · rw [show raceStep (sigs, out) a = (itemSig a :: sigs, out ++ [a]) by
            simp [raceStep, hm, hsig]]
        rw [ih]
        have hout : countSig s (out ++ [a]) =
            countSig s out + (if itemSig a = s then 1 else 0) := by
          simp only [countSig, List.countP_append, List.countP_cons,
            List.countP_nil]
          by_cases h : itemSig a = s <;> simp [h]
        rw [hout]
        by_cases heq : itemSig a = s
        · have hs : s ∉ sigs := fun h => hsig (heq ▸ h)
          have helig : SigEligible s (a :: l) :=
            sigEligible_cons.mpr (Or.inl ⟨hm, heq⟩)
          simp [heq, hs, helig]
        · have hmem : ¬s = itemSig a := fun h => heq h.symm
          by_cases hs : s ∈ sigs
          · simp [heq, hs, hmem]
          · simp [sigEligible_cons, heq, hs, hmem]

theorem raceFold_sublist (l : List ControlItem) :
    ∀ (sigs : List String) (out : List ControlItem),
      ∃ t, (l.foldl raceStep (sigs, out)).2 = out ++ t ∧ t.Sublist l := by
  induction l with
  | nil =>
    intro sigs out
    exact ⟨[], by simp⟩
  | cons a l ih =>
    intro sigs out
    simp only [List.foldl_cons]
    by_cases hm : itemMsg a = ""
    · rw [show raceStep (sigs, out) a = (sigs, out) by simp [raceStep, hm]]
      obtain ⟨t, ht, hsub⟩ := ih sigs out
      exact ⟨t, ht, hsub.cons a⟩
    · by_cases hs : itemSig a ∈ sigs
      · rw [show raceStep (sigs, out) a = (sigs, out) by simp [raceStep, hm, hs]]
        obtain ⟨t, ht, hsub⟩ := ih sigs out
        exact ⟨t, ht, hsub.cons a⟩
      · rw [show raceStep (sigs, out) a = (itemSig a :: sigs, out ++ [a]) by
            simp [raceStep, hm, hs]]
        obtain ⟨t, ht, hsub⟩ := ih (itemSig a :: sigs) (out ++ [a])
        exact ⟨a :: t, by simpa using ht, hsub.cons₂ a⟩

theorem raceFold_msg_ne (l : List ControlItem) :
    ∀ (sigs : List String) (out : List ControlItem),
      (∀ it ∈ out, itemMsg it ≠ "") →
      ∀ it ∈ (l.foldl raceStep (sigs, out)).2, itemMsg it ≠ "" := by
  induction l with
  | nil =>
    intro sigs out h
    simpa using h
  | cons a l ih =>
    intro sigs out h
    simp only [List.foldl_cons]
    by_cases hm : itemMsg a = ""
    · rw [show raceStep (sigs, out) a = (sigs, out) by simp [raceStep, hm]]
      exact ih sigs out h
    · by_cases hs : itemSig a ∈ sigs
      · rw [show raceStep (sigs, out) a = (sigs, out) by simp [raceStep, hm, hs]]
        exact ih sigs out h
      · rw [show raceStep (sigs, out) a = (itemSig a :: sigs, out ++ [a]) by
            simp [raceStep, hm, hs]]
        refine ih _ _ ?_
        intro it hit
        rcases List.mem_append.mp hit with h1 | h1
        · exact h it h1
        · rw [List.mem_singleton.mp h1]
          exact hm

theorem runEligible_cons {s : String} {rc : List ControlItem}
    {rest : List (List ControlItem)} :
    RunEligible s (rc :: rest) ↔
      SigEligible s (lastThirty rc) ∨ RunEligible s rest := by
  constructor
  · rintro ⟨b, hmem, hp⟩
    rcases List.mem_cons.mp hmem with h | h
    · exact Or.inl (h ▸ hp)
    · exact Or.inr ⟨b, h, hp⟩
  · rintro (hp | ⟨b, hmem, hp⟩)
    · exact ⟨rc, List.mem_cons_self rc rest, hp⟩
    · exact ⟨b, List.mem_cons_of_mem rc hmem, hp⟩

theorem racePoll_mem_fst (sigs : List String) (rc : List ControlItem) (s : String) :
    s ∈ (racePoll sigs rc).1 ↔ s ∈ sigs ∨ SigEligible s (lastThirty rc) :=
  raceFold_mem_fst (lastThirty rc) sigs [] s

theorem racePoll_count (sigs : List String) (rc : List ControlItem) (s : String) :
    countSig s (racePoll sigs rc).2 =
      if s ∈ sigs then 0 else if SigEligible s (lastThirty rc) then 1 else 0 := by
  have h := raceFold_count_snd (lastThirty rc) sigs [] s
  simpa [countSig, racePoll] using h

theorem raceRun_mem_fst (batches : List (List ControlItem)) :
    ∀ (sigs : List String) (s : String),
      s ∈ (raceRun sigs batches).1 ↔ s ∈ sigs ∨ RunEligible s batches := by
  induction batches with
  | nil =>
    intro sigs s
    simp [raceRun, RunEligible]
  | cons rc rest ih =>
    intro sigs s
    show s ∈ (raceRun (racePoll sigs rc).1 rest).1 ↔ _
    rw [ih, racePoll_mem_fst, runEligible_cons, or_assoc]

theorem raceRun_total (batches : List (List ControlItem)) :
    ∀ (sigs : List String) (s : String),
      totalSig s (raceRun sigs batches).2 =
        if s ∈ sigs then 0 else if RunEligible s batches then 1 else 0 := by
  induction batches with
  | nil =>
    intro sigs s
    simp [raceRun, totalSig, RunEligible]
  | cons rc rest ih =>
    intro sigs s
    show totalSig s ((racePoll sigs rc).2 :: (raceRun (racePoll sigs rc).1 rest).2) = _
    have hstep : totalSig s ((racePoll sigs rc).2 :: (raceRun (racePoll sigs rc).1 rest).2) =
        countSig s (racePoll sigs rc).2 +
          totalSig s (raceRun (racePoll sigs rc).1 rest).2 := by
      simp [totalSig]
    rw [hstep, ih, racePoll_count]
    by_cases hs : s ∈ sigs
    · have hmem : s ∈ (racePoll sigs rc).1 :=
        (racePoll_mem_fst sigs rc s).mpr (Or.inl hs)
      simp [hs, hmem]
    · by_cases he : SigEligible s (lastThirty rc)
      · have hmem : s ∈ (racePoll sigs rc).1 :=
          (racePoll_mem_fst sigs rc s).mpr (Or.inr he)
        have hrun : RunEligible s (rc :: rest) := runEligible_cons.mpr (Or.inl he)
        simp [hs, he, hmem, hrun]
      · have hmem : s ∉ (racePoll sigs rc).1 := fun h =>
          ((racePoll_mem_fst sigs rc s).mp h).elim hs he
        have hiff : RunEligible s (rc :: rest) ↔ RunEligible s rest :=
          ⟨fun h => (runEligible_cons.mp h).resolve_left he,
           fun h => runEligible_cons.mpr (Or.inr h)⟩
        by_cases hr : RunEligible s rest
        · simp [hs, he, hmem, hr, hiff.mpr hr]
        · have hnot : ¬RunEligible s (rc :: rest) := fun h => hr (hiff.mp h)
          simp [hs, he, hmem, hr, hnot]

theorem racePoll_sublist (sigs : List String) (rc : List ControlItem) :
    (racePoll sigs rc).2.Sublist (lastThirty rc) := by
  obtain ⟨t, ht, hsub⟩ := raceFold_sublist (lastThirty rc) sigs []
  rw [racePoll, ht]
  simpa using hsub

theorem racePoll_msg_ne (sigs : List String) (rc : List ControlItem) :
    ∀ it ∈ (racePoll sigs rc).2, itemMsg it ≠ "" := by
  refine raceFold_msg_ne (lastThirty rc) sigs [] ?_
  intro it hit
  simp at hit

theorem raceRun_snd_cons (sigs : List String) (rc : List ControlItem)
    (rest : List (List ControlItem)) :
    (raceRun sigs (rc :: rest)).2 =
      (racePoll sigs rc).2 :: (raceRun (racePoll sigs rc).1 rest).2 := rfl

theorem raceRun_pairwise (R : ControlItem → ControlItem → Prop) :
    ∀ (batches : List (List ControlItem)) (sigs : List String),
      (∀ rc ∈ batches, rc.Pairwise R) →
      ∀ out ∈ (raceRun sigs batches).2, out.Pairwise R := by
  intro batches
  induction batches with
  | nil =>
    intro sigs _ out hout
    simp [raceRun] at hout
  | cons rc rest ih =>
    intro sigs hb out hout
    rw [raceRun_snd_cons] at hout
    rcases List.mem_cons.mp hout with h | h
    · subst h
      have hsub : (racePoll sigs rc).2.Sublist rc :=
        (racePoll_sublist sigs rc).trans (List.drop_sublist _ _)
      exact List.Pairwise.sublist hsub (hb rc (List.mem_cons_self rc rest))
    · exact ih (racePoll sigs rc).1
        (fun b hb' => hb b (List.mem_cons_of_mem rc hb')) out h

/-- C1: within one `race_live_loop` run, every signature is relayed at
most once, and an item whose signature was not already in the guild's
signature set and which is delivered (eligibly) in one or more of the
run's fetched batches is relayed exactly once, however many overlapping
batches deliver it. -/
theorem race_live_dedup_once (sigs : List String)
    (batches : List (List ControlItem)) (s : String) :
    totalSig s (raceRun sigs batches).2 ≤ 1 ∧
      (s ∉ sigs → RunEligible s batches →
        totalSig s (raceRun sigs batches).2 = 1) := by
  have h := raceRun_total batches sigs s
  constructor
  · rw [h]
    by_cases hs : s ∈ sigs
    · simp [hs]
    · by_cases hr : RunEligible s batches <;> simp [hs, hr]
  · intro h1 h2
    rw [h]
    simp [h1, h2]

/-- Witness for C1: `itemA` delivered in two overlapping batches of a
fresh run is relayed exactly once. -/
theorem race_live_dedup_once_witness :
    totalSig (itemSig itemA) (raceRun [] [[itemA], [itemA, itemB]]).2 = 1 :=
  (race_live_dedup_once [] [[itemA], [itemA, itemB]] (itemSig itemA)).2
    (by decide) (by decide)

/-- C3: if each fetched batch is in non-decreasing timestamp order (the
feed is time-ordered), then the items relayed from each batch of the run
are relayed in non-decreasing timestamp order. -/
theorem race_live_relay_order (sigs : List String)
    (batches : List (List ControlItem))
    (hb : ∀ rc ∈ batches, rc.Pairwise tsLe) :
    ∀ out ∈ (raceRun sigs batches).2, out.Pairwise tsLe :=
  raceRun_pairwise tsLe batches sigs hb

/-- Witness for C3: a concrete time-ordered batch yields a time-ordered
relay list. -/
theorem race_live_relay_order_witness :
    (raceRun [] [[itemA, itemB]]).2 = [[itemA, itemB]] ∧
      List.Pairwise tsLe [itemA, itemB] :=
  ⟨by decide,
    race_live_relay_order [] [[itemA, itemB]] (by decide) [itemA, itemB]
      (by decide)⟩

/-- Counterexample for C4: a first activation relays `itemA`; the
guild's signature store survives the stop, and a second activation
started through `setdefault` relays nothing when the same item is
fetched again — a signature carried over from the previous activation
suppresses the relay, contradicting the claim's fresh-start property. -/
theorem race_live_restart_not_fresh :
    (raceRun (activateSigs none) [[itemA]]).2 = [[itemA]] ∧
      (raceRun (activateSigs (some (raceRun (activateSigs none) [[itemA]]).1))
        [[itemA]]).2 = [[]] := by
  decide

/-- C4 amended: stopping a follower does not discard the per-guild
signature store; a new activation starts from the persisted set
(`setdefault`), and any signature already in that set is never relayed
by the new activation; the set is empty only for a guild with no prior
entry in the process-global map. -/
theorem race_live_activation_reuses_sigs (store : List String)
    (batches : List (List ControlItem)) (s : String) (h : s ∈ store) :
    activateSigs (some store) = store ∧ activateSigs none = [] ∧
      totalSig s (raceRun (activateSigs (some store)) batches).2 = 0 := by
  refine ⟨rfl, rfl, ?_⟩
  rw [show activateSigs (some store) = store from rfl, raceRun_total]
  simp [h]

/-- Witness for the amended C4. -/
theorem race_live_activation_reuses_sigs_witness :
    activateSigs (some [itemSig itemA]) = [itemSig itemA] ∧
      activateSigs none = [] ∧
      totalSig (itemSig itemA)
        (raceRun (activateSigs (some [itemSig itemA])) [[itemA]]).2 = 0 :=
  race_live_activation_reuses_sigs [itemSig itemA] [[itemA]] (itemSig itemA)
    (by decide)

/-- C10: in each poll only the final thirty fetched items are eligible:
the relayed items form a subsequence of `rc[-30:]`, every relayed item
has a non-empty stripped message, the signature set grows by exactly the
eligible signatures of `rc[-30:]`, and an unseen item of the batch whose
signature is not eligible inside `rc[-30:]` (in particular one occurring
only before the final thirty positions, or one whose message is empty or
missing) is neither relayed nor recorded in the signature set. -/
theorem race_live_last_thirty_only (sigs : List String) (rc : List ControlItem) :
    (racePoll sigs rc).2.Sublist (lastThirty rc) ∧
      (∀ it ∈ (racePoll sigs rc).2, itemMsg it ≠ "") ∧
      (∀ s, s ∈ (racePoll sigs rc).1 ↔ s ∈ sigs ∨ SigEligible s (lastThirty rc)) ∧
      (∀ it ∈ rc, itemSig it ∉ sigs →
        ¬SigEligible (itemSig it) (lastThirty rc) →
        it ∉ (racePoll sigs rc).2 ∧ itemSig it ∉ (racePoll sigs rc).1) := by
  refine ⟨racePoll_sublist sigs rc, racePoll_msg_ne sigs rc,
    racePoll_mem_fst sigs rc, ?_⟩
  intro it _ h1 h2
  constructor
  · intro hmem
    have hms : itemMsg it ≠ "" := racePoll_msg_ne sigs rc it hmem
    have hin : it ∈ lastThirty rc := (racePoll_sublist sigs rc).subset hmem
    exact h2 ⟨it, hin, hms, rfl⟩
  · intro hmem
    rcases (racePoll_mem_fst sigs rc (itemSig it)).mp hmem with h | h
    exacts [h1 h, h2 h]

/-- Witness for C10: the unseen head of a 31-item batch is neither
relayed nor added to the signature set. -/
theorem race_live_last_thirty_only_witness :
    (⟨some "00", some "EARLY"⟩ : ControlItem) ∉ (racePoll [] batch31).2 ∧
      itemSig ⟨some "00", some "EARLY"⟩ ∉ (racePoll [] batch31).1 :=
  (race_live_last_thirty_only [] batch31).2.2.2 ⟨some "00", some "EARLY"⟩
    (by decide) (by decide) (by decide)

theorem foldl_min_mem (ss : List Int) :
    ∀ s0 : Int, ss.foldl min s0 ∈ s0 :: ss := by
  induction ss with
  | nil => intro s0; simp
  | cons a ss ih =>
    intro s0
    rw [List.foldl_cons]
    have h := ih (min s0 a)
    rcases List.mem_cons.mp h with h' | h'
    · rw [h']
      rcases min_choice s0 a with hc | hc
      · rw [hc]; exact List.mem_cons_self _ _
      · rw [hc]; exact List.mem_cons_of_mem _ (List.mem_cons_self _ _)
    · exact List.mem_cons_of_mem _ (List.mem_cons_of_mem _ h')

theorem foldl_min_le (ss : List Int) :
    ∀ s0 : Int, ∀ x ∈ s0 :: ss, ss.foldl min s0 ≤ x := by
  induction ss with
  | nil =>
    intro s0 x hx
    simp at hx
    simp [hx]
  | cons a ss ih =>
    intro s0 x hx
    rw [List.foldl_cons]
    rcases List.mem_cons.mp hx with rfl | h
    · exact le_trans (ih (min x a) (min x a) (List.mem_cons_self _ _))
        (min_le_left _ _)
    · rcases List.mem_cons.mp h with rfl | h'
      · exact le_trans (ih (min s0 x) (min s0 x) (List.mem_cons_self _ _))
          (min_le_right _ _)
      · exact ih (min s0 a) x (List.mem_cons_of_mem _ h')

theorem foldl_max_mem (es : List Int) :
    ∀ e0 : Int, es.foldl max e0 ∈ e0 :: es := by
  induction es with
  | nil => intro e0; simp
  | cons a es ih =>
    intro e0
    rw [List.foldl_cons]
    have h := ih (max e0 a)
    rcases List.mem_cons.mp h with h' | h'
    · rw [h']
      rcases max_choice e0 a with hc | hc
      · rw [hc]; exact List.mem_cons_self _ _
      · rw [hc]; exact List.mem_cons_of_mem _ (List.mem_cons_self _ _)
    · exact List.mem_cons_of_mem _ (List.mem_cons_of_mem _ h')

theorem foldl_max_ge (es : List Int) :
    ∀ e0 : Int, ∀ x ∈ e0 :: es, x ≤ es.foldl max e0 := by
  induction es with
  | nil =>
    intro e0 x hx
    simp at hx
    simp [hx]
  | cons a es ih =>
    intro e0 x hx
    rw [List.foldl_cons]
    rcases List.mem_cons.mp hx with rfl | h
    · exact le_trans (le_max_left _ _)
        (ih (max x a) (max x a) (List.mem_cons_self _ _))
    · rcases List.mem_cons.mp h with rfl | h'
      · exact le_trans (le_max_right _ _)
          (ih (max e0 x) (max e0 x) (List.mem_cons_self _ _))
      · exact ih (max e0 a) x (List.mem_cons_of_mem _ h')

/-- C2: whenever the resolver returns a window, `relevant` is exactly
the followed-category sibling filter, the pad is `padHours` hours
clamped to 0–72 hours, `window_start + pad` is the least `date_start`
of the relevant sessions, and `window_end − pad` is the greatest
`date_end` — i.e. the window is `[min(date_start) − pad,
max(date_end) + pad]`.  The witness instantiates it at starts
{10:00, 13:00}, ends {11:30, 15:00} and a pad of one hour, where the
window is exactly 09:00–16:00 (540–960 in minutes). -/
theorem window_min_max_pad (sessions : List Session) (padHours : Int)
    (ws we : Int) (meta : Session) (relevant : List Session)
    (h : pickWindow sessions padHours = some (ws, we, meta, relevant)) :
    relevant = relevantSessions sessions ∧
      0 ≤ 60 * max 0 (min 72 padHours) ∧
      60 * max 0 (min 72 padHours) ≤ 72 * 60 ∧
      (ws + 60 * max 0 (min 72 padHours)) ∈
        relevant.filterMap Session.date_start ∧
      (∀ x ∈ relevant.filterMap Session.date_start,
        ws + 60 * max 0 (min 72 padHours) ≤ x) ∧
      (we - 60 * max 0 (min 72 padHours)) ∈
        relevant.filterMap Session.date_end ∧
      (∀ x ∈ relevant.filterMap Session.date_end,
        x ≤ we - 60 * max 0 (min 72 padHours)) := by
  have hq0 : (0 : Int) ≤ max 0 (min 72 padHours) := le_max_left _ _
  have hq72 : max 0 (min 72 padHours) ≤ 72 :=
    max_le (by norm_num) (min_le_left _ _)
  unfold pickWindow at h
  split at h
  · cases h
  · next meta0 rest hrel =>
    split at h
    · cases h
    · cases h
    · next s0 ss e0 es hst hen =>
      simp only [Option.some.injEq, Prod.mk.injEq] at h
      obtain ⟨hws, hwe, hmeta, hrelev⟩ := h
      subst hmeta hrelev
      have hws' : ws + 60 * max 0 (min 72 padHours) = ss.foldl min s0 := by
        rw [← hws]; ring
      have hwe' : we - 60 * max 0 (min 72 padHours) = es.foldl max e0 := by
        rw [← hwe]; ring
      refine ⟨hrel.symm, by linarith, by linarith, ?_, ?_, ?_, ?_⟩
      · rw [hws', hst]
        exact foldl_min_mem ss s0
      · intro x hx
        rw [hst] at hx
        rw [hws']
        exact foldl_min_le ss s0 x hx
      · rw [hwe', hen]
        exact foldl_max_mem es e0
      · intro x hx
        rw [hen] at hx
        rw [hwe']
        exact foldl_max_ge es e0 x hx

/-- Witness for C2: with starts {10:00, 13:00}, ends {11:30, 15:00} and
a pad of one hour, the resolved window is exactly 09:00–16:00
(540–960 minutes). -/
theorem window_min_max_pad_witness :
    pickWindow [sessRace, sessQuali] 1 =
        some (540, 960, sessRace, [sessRace, sessQuali]) ∧
      (∀ x ∈ [sessRace, sessQuali].filterMap Session.date_start,
        540 + 60 * max 0 (min 72 (1 : Int)) ≤ x) ∧
      (∀ x ∈ [sessRace, sessQuali].filterMap Session.date_end,
        x ≤ 960 - 60 * max 0 (min 72 (1 : Int))) :=
  ⟨by decide,
    (window_min_max_pad [sessRace, sessQuali] 1 540 960 sessRace
      [sessRace, sessQuali] (by decide)).2.2.2.2.1,
    (window_min_max_pad [sessRace, sessQuali] 1 540 960 sessRace
      [sessRace, sessQuali] (by decide)).2.2.2.2.2.2⟩

theorem superTicks_running (sk : Int) (n : Nat) :
    ∀ (e : Bool) (k : Option Int),
      superTicks sk true n { running := true, enabled := e, sessionKey := k } =
        ({ running := true, enabled := e, sessionKey := k }, 0) := by
  induction n with
  | zero => intro e k; rfl
  | succ n ih =>
    intro e k
    show (let t := superTickGuild sk true true
            { running := true, enabled := e, sessionKey := k }
          let r := superTicks sk true n t.1
          (r.1, t.2.1 + r.2)) = _
    simp only [superTickGuild]
    simp [ih e k]

/-- C5: for a tenant inside an open window the supervisor is idempotent
across ticks — a tick that sees the tenant running starts nothing and
changes nothing; from a stopped tenant, any positive number of in-window
ticks performs exactly one activation (one follower task, one
destination) and leaves the tenant running; and a tick that sees a
stopped tenant outside the window is a no-op. -/
theorem supervisor_single_activation (sk : Int) (n : Nat) (e : Bool)
    (k : Option Int) :
    (superTicks sk true n { running := true, enabled := e, sessionKey := k } =
        ({ running := true, enabled := e, sessionKey := k }, 0)) ∧
      (1 ≤ n →
        superTicks sk true n { running := false, enabled := e, sessionKey := k } =
          ({ running := true, enabled := true, sessionKey := some sk }, 1)) ∧
      (superTickGuild sk true false { running := false, enabled := e, sessionKey := k } =
        ({ running := false, enabled := e, sessionKey := k }, 0, false)) := by
  refine ⟨superTicks_running sk n e k, ?_, rfl⟩
  intro hn
  obtain ⟨m, rfl⟩ : ∃ m, n = m + 1 := ⟨n - 1, by omega⟩
  show (let t := superTickGuild sk true true
          { running := false, enabled := e, sessionKey := k }
        let r := superTicks sk true m t.1
        (r.1, t.2.1 + r.2)) = _
  simp only [superTickGuild]
  simp [superTicks_running sk m]

/-- Witness for C5: five in-window ticks from a stopped tenant yield
exactly one activation and a running tenant. -/
theorem supervisor_single_activation_witness :
    superTicks 77 true 5 { running := false, enabled := false, sessionKey := none } =
      ({ running := true, enabled := true, sessionKey := some 77 }, 1) :=
  (supervisor_single_activation 77 5 false none).2.1 (by decide)

theorem mem_insertLe {α : Type} (le : α → α → Bool) (x : α) :
    ∀ (l : List α) (z : α), z ∈ insertLe le x l ↔ z = x ∨ z ∈ l := by
  intro l
  induction l with
  | nil => intro z; simp [insertLe]
  | cons y ys ih =>
    intro z
    by_cases h : le y x = true
    · rw [show insertLe le x (y :: ys) = y :: insertLe le x ys by
        simp [insertLe, h]]
      simp only [List.mem_cons, ih]
      tauto
    · rw [show insertLe le x (y :: ys) = x :: y :: ys by
        simp [insertLe, h]]
      simp only [List.mem_cons]

theorem pairwise_insertLe {α : Type} (le : α → α → Bool)
    (htrans : ∀ a b c, le a b = true → le b c = true → le a c = true)
    (htotal : ∀ a b, le a b = true ∨ le b a = true) (x : α) :
    ∀ l : List α, l.Pairwise (fun a b => le a b = true) →
      (insertLe le x l).Pairwise (fun a b => le a b = true) := by
  intro l
  induction l with
  | nil => intro _; simp [insertLe]
  | cons y ys ih =>
    intro hp
    rcases List.pairwise_cons.mp hp with ⟨hy, hys⟩
    by_cases h : le y x = true
    · rw [show insertLe le x (y :: ys) = y :: insertLe le x ys by
        simp [insertLe, h]]
      refine List.pairwise_cons.mpr ⟨?_, ih hys⟩
      intro z hz
      rcases (mem_insertLe le x ys z).mp hz with rfl | hz'
      · exact h
      · exact hy z hz'
    · rw [show insertLe le x (y :: ys) = x :: y :: ys by
        simp [insertLe, h]]
      have hxy : le x y = true := (htotal x y).resolve_right (by simpa using h)
      refine List.pairwise_cons.mpr ⟨?_, hp⟩
      intro z hz
      rcases List.mem_cons.mp hz with rfl | hz'
      · exact hxy
      · exact htrans x y z hxy (hy z hz')

theorem pySorted_pairwise {α : Type} (le : α → α → Bool)
    (htrans : ∀ a b c, le a b = true → le b c = true → le a c = true)
    (htotal : ∀ a b, le a b = true ∨ le b a = true) (l : List α) :
    (pySorted le l).Pairwise (fun a b => le a b = true) := by
  suffices h : ∀ (l acc : List α),
      acc.Pairwise (fun a b => le a b = true) →
      (l.foldl (fun acc x => insertLe le x acc) acc).Pairwise
        (fun a b => le a b = true) by
    exact h l [] (by simp)
  intro l
  induction l with
  | nil => intro acc hacc; simpa using hacc
  | cons x xs ih =>
    intro acc hacc
    rw [List.foldl_cons]
    exact ih _ (pairwise_insertLe le htrans htotal x acc hacc)

theorem pySorted_mem {α : Type} (le : α → α → Bool) (l : List α) (z : α) :
    z ∈ pySorted le l ↔ z ∈ l := by
  suffices h : ∀ (l acc : List α) (z : α),
      z ∈ l.foldl (fun acc x => insertLe le x acc) acc ↔ z ∈ acc ∨ z ∈ l by
    have := h l [] z
    simpa [pySorted] using this
  intro l
  induction l with
  | nil => intro acc z; simp
  | cons x xs ih =>
    intro acc z
    rw [List.foldl_cons, ih (insertLe le x acc) z, mem_insertLe]
    simp only [List.mem_cons]
    tauto

theorem getLast?_mem_of_ne_nil {α : Type} :
    ∀ l : List α, l ≠ [] → ∃ x, l.getLast? = some x ∧ x ∈ l := by
  intro l
  induction l with
  | nil => intro h; exact absurd rfl h
  | cons a l ih =>
    intro _
    cases l with
    | nil => exact ⟨a, List.getLast?_singleton a, List.mem_singleton_self a⟩
    | cons b l' =>
      obtain ⟨x, hx, hmem⟩ := ih (by simp)
      exact ⟨x, by rw [List.getLast?_cons_cons]; exact hx,
        List.mem_cons_of_mem a hmem⟩

theorem pairwise_getLast_rel {α : Type} {R : α → α → Prop} :
    ∀ (l : List α) (x : α), l.Pairwise R → l.getLast? = some x →
      ∀ y ∈ l, y = x ∨ R y x := by
  intro l
  induction l with
  | nil => intro x _ hx; cases hx
  | cons a l ih =>
    intro x hp hx y hy
    cases l with
    | nil =>
      rw [List.getLast?_singleton] at hx
      rcases List.mem_singleton.mp hy with rfl
      exact Or.inl (Option.some.inj hx)
    | cons b l' =>
      rw [List.getLast?_cons_cons] at hx
      rcases List.pairwise_cons.mp hp with ⟨ha, hp'⟩
      rcases List.mem_cons.mp hy with rfl | hy'
      · obtain ⟨z, hz, hzm⟩ := getLast?_mem_of_ne_nil (b :: l') (by simp)
        rw [hz] at hx
        rcases Option.some.inj hx with rfl
        exact Or.inr (ha z hzm)
      · exact ih x hp' hx y hy'

theorem keyLe_trans : ∀ a b c : Session,
    keyLe a b = true → keyLe b c = true → keyLe a c = true := by
  intro a b c hab hbc
  simp only [keyLe, decide_eq_true_eq] at *
  omega

theorem keyLe_total : ∀ a b : Session, keyLe a b = true ∨ keyLe b a = true := by
  intro a b
  simp only [keyLe, decide_eq_true_eq]
  omega

theorem pickLatest_max (relevant : List Session) (h : relevant ≠ []) :
    ∃ latest, pickLatest relevant = some latest ∧ latest ∈ relevant ∧
      ∀ t ∈ relevant, keyOf t ≤ keyOf latest := by
  have hne : pySorted keyLe relevant ≠ [] := by
    obtain ⟨a, l, rfl⟩ : ∃ a l, relevant = a :: l := by
      cases relevant with
      | nil => exact absurd rfl h
      | cons a l => exact ⟨a, l, rfl⟩
    intro hsn
    have : a ∈ pySorted keyLe (a :: l) :=
      (pySorted_mem keyLe (a :: l) a).mpr (List.mem_cons_self a l)
    rw [hsn] at this
    cases this
  obtain ⟨x, hx, hxm⟩ := getLast?_mem_of_ne_nil _ hne
  refine ⟨x, hx, (pySorted_mem keyLe relevant x).mp hxm, ?_⟩
  intro t ht
  have hts : t ∈ pySorted keyLe relevant := (pySorted_mem keyLe relevant t).mpr ht
  rcases pairwise_getLast_rel (pySorted keyLe relevant) x
      (pySorted_pairwise keyLe keyLe_trans keyLe_total relevant) hx t hts with
    rfl | hrel
  · exact le_refl _
  · simpa [keyLe, decide_eq_true_eq] using hrel

/-- Counterexample for C6: inside an open window with two stopped
tenants, a provisioning failure for tenant 1 leaves the whole registry
untouched — tenant 2, whose provisioning would have succeeded, is not
handled in the same cycle (with provisioning succeeding for all, both
tenants are started).  The failure is thus not contained to the failing
tenant's activation attempt. -/
theorem supervisor_abort_skips_other_tenants :
    (superCycle (idleClamp 1800) 0
        (.ok (some (-10, 10, sessRace, [sessRace])))
        (fun g => decide (g ≠ 1)) [(1, idleG), (2, idleG)]).1 =
      [(1, idleG), (2, idleG)] ∧
      (superCycle (idleClamp 1800) 0
          (.ok (some (-10, 10, sessRace, [sessRace])))
          (fun _ => true) [(1, idleG), (2, idleG)]).1 =
        [(1, { running := true, enabled := true, sessionKey := some 9001 }),
          (2, { running := true, enabled := true, sessionKey := some 9001 })] := by
  constructor
  · rfl
  · rfl

/-- C6 amended: a destination-provisioning failure for one tenant is
non-fatal and that tenant is retried on a later cycle, and tenants
processed before it in the guild loop are handled normally; but the
raised exception aborts the remainder of the guild loop, so the failing
tenant and every tenant after it are left untouched for this cycle. -/
theorem supervisor_provision_abort (sk : Int) (provisionOk : Nat → Bool)
    (gs1 gs2 : List (Nat × GuildSt)) (g : Nat) (st : GuildSt)
    (hfail : provisionOk g = false) (hidle : st.running = false)
    (hok : (cycleGuilds sk provisionOk true gs1).2.2 = false) :
    cycleGuilds sk provisionOk true (gs1 ++ (g, st) :: gs2) =
      ((cycleGuilds sk provisionOk true gs1).1 ++ (g, st) :: gs2,
        (cycleGuilds sk provisionOk true gs1).2.1, true) := by
  induction gs1 with
  | nil =>
    have htick : superTickGuild sk (provisionOk g) true st = (st, 0, true) := by
      simp [superTickGuild, hfail, hidle]
    simp [cycleGuilds, htick]
  | cons p0 gs1 ih =>
    obtain ⟨g0, st0⟩ := p0
    rcases htick : superTickGuild sk (provisionOk g0) true st0 with ⟨st1, c, b⟩
    cases b with
    | true =>
      exfalso
      have : (cycleGuilds sk provisionOk true ((g0, st0) :: gs1)).2.2 = true := by
        simp [cycleGuilds, htick]
      rw [hok] at this
      cases this
    | false =>
      have hok' : (cycleGuilds sk provisionOk true gs1).2.2 = false := by
        have h2 := hok
        simp only [cycleGuilds, htick] at h2
        exact h2
      have hrec := ih hok'
      simp only [List.cons_append, cycleGuilds, htick]
      simp [cycleGuilds, htick, hrec]

/-- Witness for the amended C6: with three stopped tenants inside the
window and provisioning failing for tenant 2, tenant 1 is handled,
tenants 2 and 3 are left untouched, and the cycle reports the abort. -/
theorem supervisor_provision_abort_witness :
    cycleGuilds 9001 (fun g => decide (g ≠ 2)) true
        [(1, idleG), (2, idleG), (3, idleG)] =
      ((cycleGuilds 9001 (fun g => decide (g ≠ 2)) true [(1, idleG)]).1 ++
          (2, idleG) :: [(3, idleG)],
        (cycleGuilds 9001 (fun g => decide (g ≠ 2)) true [(1, idleG)]).2.1,
        true) :=
  supervisor_provision_abort 9001 (fun g => decide (g ≠ 2)) [(1, idleG)]
    [(3, idleG)] 2 idleG (by decide) (by decide) (by decide)

/-- Counterexample for C7: with the default idle interval (1800 s after
clamping), a transport error during window resolution is followed by a
fixed 60-second sleep, while a "no window" result is followed by the
1800-second idle sleep — the supervisor survives both, but the claim
that the error gets the same idle-interval backoff is false. -/
theorem supervisor_error_backoff_differs :
    (superCycle (idleClamp 1800) 0 (.error ()) (fun _ => true)
        [(1, idleG)]).2 = 60 ∧
      (superCycle (idleClamp 1800) 0 (.ok none) (fun _ => true)
          [(1, idleG)]).2 = 1800 ∧
      ¬((60 : Int) = 1800) := by
  refine ⟨rfl, ?_, by decide⟩
  show idleClamp 1800 = 1800
  decide

/-- C7 amended: a transport error during window resolution never
crashes the supervisor — the registry is returned unchanged and the
loop retries after a fixed 60-second backoff; a "no window" result also
leaves the registry unchanged but sleeps the clamped idle interval, and
the two backoffs coincide exactly when the configured idle interval
clamps to 60 seconds. -/
theorem supervisor_error_noncrash (raw now : Int) (provisionOk : Nat → Bool)
    (guilds : List (Nat × GuildSt)) :
    superCycle (idleClamp raw) now (.error ()) provisionOk guilds =
        (guilds, 60) ∧
      superCycle (idleClamp raw) now (.ok none) provisionOk guilds =
        (guilds, idleClamp raw) ∧
      ((superCycle (idleClamp raw) now (.error ()) provisionOk guilds).2 =
          (superCycle (idleClamp raw) now (.ok none) provisionOk guilds).2 ↔
        idleClamp raw = 60) := by
  refine ⟨rfl, rfl, ?_⟩
  show (60 : Int) = idleClamp raw ↔ idleClamp raw = 60
  exact eq_comm

theorem superTickGuild_state (sk : Int) (pOk iw : Bool) (st : GuildSt) :
    (superTickGuild sk pOk iw st).1 = st ∨
      (superTickGuild sk pOk iw st).1 =
        { running := true, enabled := true, sessionKey := some sk } ∨
      ((superTickGuild sk pOk iw st).1.running = false ∧
        (superTickGuild sk pOk iw st).1.enabled = false) := by
  unfold superTickGuild
  split
  · split
    · exact Or.inr (Or.inl rfl)
    · exact Or.inl rfl
  · split
    · exact Or.inr (Or.inr ⟨rfl, rfl⟩)
    · exact Or.inl rfl

theorem cycleGuilds_entries (sk : Int) (pOk : Nat → Bool) (iw : Bool) :
    ∀ gs : List (Nat × GuildSt), ∀ e ∈ (cycleGuilds sk pOk iw gs).1,
      e ∈ gs ∨
        e.2 = { running := true, enabled := true, sessionKey := some sk } ∨
        (e.2.running = false ∧ e.2.enabled = false) := by
  intro gs
  induction gs with
  | nil =>
    intro e he
    simp [cycleGuilds] at he
  | cons p rest ih =>
    obtain ⟨g, st⟩ := p
    intro e he
    rcases htick : superTickGuild sk (pOk g) iw st with ⟨st1, c, b⟩
    have hst1 : st1 = st ∨
        st1 = { running := true, enabled := true, sessionKey := some sk } ∨
        (st1.running = false ∧ st1.enabled = false) := by
      have := superTickGuild_state sk (pOk g) iw st
      rw [htick] at this
      exact this
    cases b with
    | true =>
      simp only [cycleGuilds, htick] at he
      rcases List.mem_cons.mp he with rfl | hrest
      · rcases hst1 with rfl | h | h
        · exact Or.inl (List.mem_cons_self _ _)
        · exact Or.inr (Or.inl (by rw [h]))
        · exact Or.inr (Or.inr h)
      · exact Or.inl (List.mem_cons_of_mem _ hrest)
    | false =>
      simp only [cycleGuilds, htick] at he
      rcases List.mem_cons.mp he with rfl | hrest
      · rcases hst1 with rfl | h | h
        · exact Or.inl (List.mem_cons_self _ _)
        · exact Or.inr (Or.inl (by rw [h]))
        · exact Or.inr (Or.inr h)
      · rcases ih e hrest with hin | h | h
        · exact Or.inl (List.mem_cons_of_mem _ hin)
        · exact Or.inr (Or.inl h)
        · exact Or.inr (Or.inr h)

theorem pickWindow_relevant (sessions : List Session) (padHours ws we : Int)
    (meta : Session) (relevant : List Session)
    (h : pickWindow sessions padHours = some (ws, we, meta, relevant)) :
    relevant = relevantSessions sessions ∧ relevant ≠ [] := by
  unfold pickWindow at h
  split at h
  · cases h
  · next meta0 rest hrel =>
    split at h
    · cases h
    · cases h
    · next s0 ss e0 es hst hen =>
      simp only [Option.some.injEq, Prod.mk.injEq] at h
      obtain ⟨_, _, _, hrelev⟩ := h
      subst hrelev
      exact ⟨hrel.symm, by simp⟩

/-- C8: whenever the resolver returns a window, the session the
supervisor polls is a latest-starting member of the followed-category
sibling filter, and every follower the supervisor starts during a cycle
driven by that window is started with exactly that session's
`session_key` (a registry entry after the cycle is an untouched input
entry, a stopped one, or one started with the latest session's key). -/
theorem supervisor_passes_latest_key (sessions : List Session)
    (padHours ws we : Int) (meta : Session) (relevant : List Session)
    (h : pickWindow sessions padHours = some (ws, we, meta, relevant)) :
    ∃ latest, pickLatest relevant = some latest ∧
      latest ∈ relevantSessions sessions ∧
      (∀ t ∈ relevant, keyOf t ≤ keyOf latest) ∧
      ∀ (idle_s now : Int) (provisionOk : Nat → Bool)
        (guilds : List (Nat × GuildSt)),
        ∀ e ∈ (superCycle idle_s now (.ok (some (ws, we, meta, relevant)))
            provisionOk guilds).1,
          e ∈ guilds ∨
            e.2 = { running := true
                    enabled := true
                    sessionKey := some latest.session_key } ∨
            (e.2.running = false ∧ e.2.enabled = false) := by
  obtain ⟨hrel, hne⟩ := pickWindow_relevant sessions padHours ws we meta relevant h
  obtain ⟨latest, hpl, hmem, hmax⟩ := pickLatest_max relevant hne
  refine ⟨latest, hpl, hrel ▸ hmem, hmax, ?_⟩
  intro idle_s now provisionOk guilds e he
  have hcyc : (superCycle idle_s now (.ok (some (ws, we, meta, relevant)))
      provisionOk guilds).1 =
      (cycleGuilds latest.session_key provisionOk
        (decide (ws ≤ now) && decide (now ≤ we)) guilds).1 := by
    simp only [superCycle, hpl]
    split <;> rfl
  rw [hcyc] at he
  exact cycleGuilds_entries latest.session_key provisionOk _ guilds e he

/-- Witness for C8: a concrete in-window cycle starts tenant 1 with the
latest-starting relevant session's key (9002, `sessQuali`). -/
theorem supervisor_passes_latest_key_witness :
    (1, ({ running := true, enabled := true, sessionKey := some 9002 } :
        GuildSt)) ∈ [(1, idleG)] ∨
      ({ running := true, enabled := true, sessionKey := some (9002 : Int) } :
          GuildSt) =
        { running := true, enabled := true, sessionKey := some 9002 } ∨
      (({ running := true, enabled := true, sessionKey := some (9002 : Int) } :
          GuildSt).running = false ∧
        ({ running := true, enabled := true, sessionKey := some (9002 : Int) } :
          GuildSt).enabled = false) := by
  obtain ⟨latest, hpl, _, _, hall⟩ :=
    supervisor_passes_latest_key [sessRace, sessQuali] 1 540 960 sessRace
      [sessRace, sessQuali] (by decide)
  have hlat : latest = sessQuali := by
    have h2 : pickLatest [sessRace, sessQuali] = some sessQuali := by decide
    rw [hpl] at h2
    exact Option.some.inj h2
  subst hlat
  exact hall 1800 600 (fun _ => true) [(1, idleG)]
    (1, { running := true, enabled := true, sessionKey := some 9002 })
    (by decide)

/-- Counterexample for C9: at `n = 0` the slice `[-0:]` returns the
whole trail, not the last zero lines — with a three-line trail,
`_racetail(gid, 0)` yields all three lines, so "returns the last `n`
lines for every `n`" fails at `n = 0`. -/
theorem racetail_zero_counterexample :
    (racetailRun ⟨[], [], [(1, ["a", "b", "c"])], []⟩ 1 0).1.1 =
        ["a", "b", "c"] ∧
      specLastLines ["a", "b", "c"] 0 = [] ∧
      ¬((racetailRun ⟨[], [], [(1, ["a", "b", "c"])], []⟩ 1 0).1.1 =
        specLastLines ["a", "b", "c"] 0) := by
  decide

/-- C9 amended: for every tenant and every `n ≥ 1` — the administrative
command clamps `n` into 1–50 and the kill switch passes 20, so `n = 0`
is reachable only by calling `_racetail` directly, where Python's
`[-0:]` slice returns the whole trail — the tail operation returns
exactly the last `n` lines of the tenant's current debug trail (a
suffix of length `min n (trail length)`; the whole trail when it holds
at most `n` lines) and has no side effects: the enabled flags, worker
tasks, debug trails and signature sets are all returned unchanged,
whether or not a follower is running. -/
theorem racetail_last_n (st : RaceState) (gid : Nat) (n : Nat)
    (hn : 1 ≤ n) :
    (racetailRun st gid n).1.1 =
        specLastLines ((dictGet st.debug gid).getD []) n ∧
      (racetailRun st gid n).1.1.length =
        min n ((dictGet st.debug gid).getD []).length ∧
      (racetailRun st gid n).1.1.IsSuffix ((dictGet st.debug gid).getD []) ∧
      (((dictGet st.debug gid).getD []).length ≤ n →
        (racetailRun st gid n).1.1 = (dictGet st.debug gid).getD []) ∧
      (racetailRun st gid n).2 = st ∧
      (∀ raw : Int, 1 ≤ tailClamp raw ∧ tailClamp raw ≤ 50) := by
  have hne : n ≠ 0 := by omega
  have heq : (racetailRun st gid n).1.1 =
      ((dictGet st.debug gid).getD []).drop
        (((dictGet st.debug gid).getD []).length - n) := by
    simp [racetailRun, racetailLines, hne]
  refine ⟨by rw [heq]; rfl, ?_, ?_, ?_, rfl, ?_⟩
  · rw [heq, List.length_drop]
    omega
  · rw [heq]
    exact List.drop_suffix _ _
  · intro hle
    rw [heq]
    have : ((dictGet st.debug gid).getD []).length - n = 0 := by omega
    rw [this, List.drop_zero]
  · intro raw
    constructor
    · exact le_max_left _ _
    · exact max_le (by norm_num) (min_le_left _ _)

/-- Witness for the amended C9: the last two of three trail lines, with
the state unchanged. -/
theorem racetail_last_n_witness :
    (racetailRun stThree 1 2).1.1 =
        specLastLines ((dictGet stThree.debug 1).getD []) 2 ∧
      (racetailRun stThree 1 2).1.1.length =
        min 2 ((dictGet stThree.debug 1).getD []).length ∧
      (racetailRun stThree 1 2).1.1.IsSuffix ((dictGet stThree.debug 1).getD []) ∧
      (((dictGet stThree.debug 1).getD []).length ≤ 2 →
        (racetailRun stThree 1 2).1.1 = (dictGet stThree.debug 1).getD []) ∧
      (racetailRun stThree 1 2).2 = stThree ∧
      (∀ raw : Int, 1 ≤ tailClamp raw ∧ tailClamp raw ≤ 50) :=
  racetail_last_n stThree 1 2 (by decide)
